import Mathlib

/-!
Shallow embedding of the policy-store repository (BraneFramework/policy-store),
covering the SQLite-backed `DatabaseConnection` implementation
(`lib/databases/sqlite/src/databaseconn.rs` together with the row models in
`models.rs` and the table constraints in `schema.rs`) and the JWK key resolver
(`lib/auth/jwk/src/keyresolver/kid.rs`).

Modelling conventions:
- Rust `u64` values are `Nat` and `i64` values are `Int`; the `as` casts of the
  source are made explicit (`u64_as_i64`, `i64_as_u64`, `i64_wrap`) with
  two's-complement wrapping, exactly as release-mode Rust evaluates them.
- Timestamps (`NaiveDateTime`) are abstract instants modelled as `Nat`; the
  clock (`Utc::now()`) becomes an explicit `now` argument of each operation.
- Each mutating operation of the source runs inside one exclusive SQLite
  transaction, so a whole call is a single atomic state transition; the
  embedding therefore models every operation as one pure function from the
  database state (the two tables as lists of rows, in insertion order) to a
  result plus a new state.  Errors roll the transaction back, so error results
  leave the state unchanged.
- The SQL engine itself is assumed to work: failure cases that can really
  occur are the uniqueness violations dictated by the primary keys declared in
  `schema.rs` (`policies (version)` and `active_version (version, activated_on)`)
  and the (de)serialization failures of the content codec.
- The content type is generic, as in the source (`C: Serialize + DeserializeOwned`);
  `serde_json::to_string` / `serde_json::from_str` become explicit codec
  function parameters `ser : C → Option String` and `de : String → Option C`.
-/

/-! ## Machine-integer casts -/

/-- Two's-complement reinterpretation of a `u64` value as `i64`
(Rust `v as i64`). -/
def u64_as_i64 (v : Nat) : Int :=
  let r : Int := (v : Int) % (2 ^ 64)
  if r < 2 ^ 63 then r else r - 2 ^ 64

/-- Two's-complement reinterpretation of an `i64` value as `u64`
(Rust `v as u64`). -/
def i64_as_u64 (v : Int) : Nat :=
  (v % (2 ^ 64)).toNat

/-- Wrapping of an unbounded integer result back into the `i64` range
(release-mode Rust overflow semantics for `latest + 1`). -/
def i64_wrap (v : Int) : Int :=
  let r : Int := v % (2 ^ 64)
  if r < 2 ^ 63 then r else r - 2 ^ 64

/-! ## Data model (`lib/spec/src/metadata.rs`, `lib/databases/sqlite/src/models.rs`) -/

/-- The `User` record from `lib/spec/src/metadata.rs`: `{id, name}`. -/
structure User where
  id : String
  name : String
deriving DecidableEq

/-- The `AttachedMetadata` record: the user-supplied part of a policy's metadata
(name, description, language), as consumed by the SQLite connector. -/
structure AttachedMetadata where
  name : String
  description : String
  language : String
deriving DecidableEq

/-- The `Metadata` record: attached metadata plus the store-inferred fields. -/
structure Metadata where
  attached : AttachedMetadata
  created : Nat
  creator : User
  version : Nat
deriving DecidableEq

/-- Row type `SqlitePolicy` (`models.rs`): one row of the `policies` table.
`schema.rs` declares `version` as the primary key. -/
structure SqlitePolicy where
  description : String
  name : String
  language : String
  version : Int
  creator : String
  created_at : Nat
  content : String
deriving DecidableEq

/-- Row type `SqliteActiveVersion` (`models.rs`): one row of the `active_version`
ledger.  `schema.rs` declares `(version, activated_on)` as the primary key. -/
structure SqliteActiveVersion where
  version : Int
  activated_on : Nat
  activated_by : String
  deactivated_on : Option Nat
  deactivated_by : Option String
deriving DecidableEq

/-- Constructor `SqliteActiveVersion::new(version, activated_by)`: a fresh ledger row,
stamped with the current instant and with both deactivation fields absent. -/
def SqliteActiveVersion.mkNew (version : Int) (activated_by : String) (now : Nat) :
    SqliteActiveVersion :=
  { version := version, activated_on := now, activated_by := activated_by,
    deactivated_on := none, deactivated_by := none }

/-- The state of the backing SQLite database: the two tables, rows kept in
insertion order. -/
structure Database where
  policies : List SqlitePolicy
  active_version : List SqliteActiveVersion
deriving DecidableEq

/-- A database holding no rows at all. -/
def Database.empty : Database := { policies := [], active_version := [] }

/-- The errors of `SQLiteConnection` (`ConnectionError` in `databaseconn.rs`),
keeping the payload fields that the connection logic itself produces.  The
variants wrapping raw engine errors (`GetActiveVersion`, `GetLatestVersion`,
`GetVersions`, `Transaction`, `SpawnBlocking`) cannot arise in the embedding,
where the engine itself never fails. -/
inductive ConnectionError where
  | AddVersion
  | ContentDeserialize (name : String) (version : Nat)
  | ContentSerialize (name : String)
  | DeactivateVersion (version : Nat)
  | GetActiveVersion
  | GetLatestVersion
  | GetVersion (version : Nat)
  | GetVersions
  | SetActive (version : Nat)
  | SpawnBlocking
  | Transaction
deriving DecidableEq

/-! ## Query helpers

`ORDER BY ts DESC LIMIT 1` followed by `Vec::pop` selects a row whose sort key
is maximal.  SQLite leaves the order of equal keys unspecified; `selectLatest`
fixes one total behaviour (the earliest-inserted row wins a tie).  Every
theorem whose truth could depend on the tie order carries a hypothesis ruling
ties out, so this choice is never load-bearing. -/

/-- The row selected by `ORDER BY key DESC LIMIT 1` (`none` on an empty
table). -/
def selectLatest {α : Type} (key : α → Nat) : List α → Option α
  | [] => none
  | x :: xs =>
    match selectLatest key xs with
    | none => some x
    | some y => if key y > key x then some y else some x

/-! ## The SQLite connection operations (`databaseconn.rs`) -/

/-- Helper `SQLiteConnection::_get_active_version`: select the ledger row with the
latest `activated_on`; if it exists and has no `deactivated_on`, its version
(cast to `u64`) is active, otherwise nothing is. -/
def _get_active_version (ledger : List SqliteActiveVersion) : Option Nat :=
  match selectLatest (fun av => av.activated_on) ledger with
  | none => none
  | some av => if av.deactivated_on.isSome then none else some (i64_as_u64 av.version)

/-- Operation `SQLiteConnection::add_version`: inside one exclusive transaction, read
the `version` of the policy row with the latest `created_at` (0 when the table
is empty), add one, serialize the content, and insert the new row under the
computed version; the insert fails (`AddVersion`) when the `policies` primary
key already holds that version. -/
def add_version {C : Type} (ser : C → Option String) (db : Database)
    (userId : String) (now : Nat) (metadata : AttachedMetadata) (content : C) :
    Except ConnectionError (Nat × Database) :=
  let latest : Int :=
    ((selectLatest (fun p => p.created_at) db.policies).map (fun p => p.version)).getD 0
  let next_version : Int := i64_wrap (latest + 1)
  match ser content with
  | none => .error (.ContentSerialize metadata.name)
  | some contentStr =>
    if db.policies.any (fun p => decide (p.version = next_version)) then
      .error .AddVersion
    else
      .ok (i64_as_u64 next_version,
        { db with policies := db.policies ++
            [{ description := metadata.description, name := metadata.name,
               language := metadata.language, version := next_version,
               creator := userId, created_at := now, content := contentStr }] })

/-- Operation `SQLiteConnection::activate`: inside one exclusive transaction, read the
active version; if it already equals `version`, succeed without touching the
ledger; otherwise insert a fresh `SqliteActiveVersion` row for `version`
(cast to `i64`), stamped with the caller and the current instant.  The insert
fails (`SetActive`) when the `(version, activated_on)` primary key already
holds that pair. -/
def activate (db : Database) (version : Nat) (userId : String) (now : Nat) :
    Except ConnectionError Database :=
  if _get_active_version db.active_version = some version then
    .ok db
  else
    if db.active_version.any
        (fun e => decide (e.version = u64_as_i64 version ∧ e.activated_on = now)) then
      .error (.SetActive version)
    else
      .ok { db with active_version :=
        db.active_version ++ [SqliteActiveVersion.mkNew (u64_as_i64 version) userId now] }

/-- Operation `SQLiteConnection::deactivate`: inside one exclusive transaction, read the
active version; when none is active, succeed without touching anything;
otherwise run `UPDATE active_version SET deactivated_on = now, deactivated_by
= user WHERE version = av`, which stamps EVERY ledger row bearing that version
number. -/
def deactivate (db : Database) (userId : String) (now : Nat) :
    Except ConnectionError Database :=
  match _get_active_version db.active_version with
  | none => .ok db
  | some av =>
    .ok { db with active_version :=
      db.active_version.map (fun e =>
        if e.version = u64_as_i64 av then
          { e with deactivated_on := some now, deactivated_by := some userId }
        else e) }

/-- Operation `SQLiteConnection::get_active_version`: runs the `_get_active_version`
helper on the connection; in the embedding (where the engine does not fail)
it always succeeds. -/
def get_active_version (db : Database) : Except ConnectionError (Option Nat) :=
  .ok (_get_active_version db.active_version)

/-- Operation `SQLiteConnection::get_version_metadata`: select the policy row with the
given version (`WHERE version = v ORDER BY created_at DESC LIMIT 1`); an empty
result is `none`, never an error.  The creator's display name is the
hard-coded placeholder of the source. -/
def get_version_metadata (db : Database) (version : Nat) :
    Except ConnectionError (Option Metadata) :=
  let rows := db.policies.filter (fun p => p.version = u64_as_i64 version)
  match selectLatest (fun p => p.created_at) rows with
  | none => .ok none
  | some p =>
    .ok (some
      { attached := { name := p.name, description := p.description, language := p.language },
        created := p.created_at,
        creator := { id := p.creator, name := "John Smith" },
        version := i64_as_u64 p.version })

/-- Operation `SQLiteConnection::get_version_content`: select the policy row with the
given version; an empty result is `none`, never an error; a present row has
its stored content deserialized, a failure there being `ContentDeserialize`. -/
def get_version_content {C : Type} (de : String → Option C) (db : Database)
    (version : Nat) : Except ConnectionError (Option C) :=
  let rows := db.policies.filter (fun p => p.version = u64_as_i64 version)
  match selectLatest (fun p => p.created_at) rows with
  | none => .ok none
  | some p =>
    match de p.content with
    | some c => .ok (some c)
    | none => .error (.ContentDeserialize p.name version)

/-! ## The KID key resolver (`lib/auth/jwk/src/keyresolver/kid.rs`)

The `jsonwebtoken` crate types are embedded structurally: a JWK carries an
optional key id (`key.common.key_id`) and algorithm parameters, of which the
resolver accepts only the octet (symmetric) variant.  The
`base64ct::Base64Url::decode` call into the fixed 32-byte buffer is an
external library routine and is passed in as a codec parameter
`decode : String → Option (List Nat)`; `none` covers both invalid Base64 and
material that does not fit the buffer.  The decoded bytes land in a prefix of
the zero-initialized buffer, and `DecodingKey::from_secret` consumes all 32
bytes, hence the zero-padding. -/

/-- The algorithm parameters of one JWK entry: octet (symmetric) key material,
or any of the other `AlgorithmParameters` variants, which the resolver
rejects. -/
inductive AlgorithmParameters where
  | OctetKey (value : String)
  | OtherKeyType
deriving DecidableEq

/-- One entry of a JSON Web Key Set: an optional key id plus algorithm
parameters. -/
structure Jwk where
  kid : Option String
  algorithm : AlgorithmParameters
deriving DecidableEq

/-- A JSON Web Key Set: the parsed `keys` array, in file order. -/
structure JwkSet where
  keys : List Jwk
deriving DecidableEq

/-- The `jsonwebtoken::DecodingKey` value as produced by `DecodingKey::from_secret`:
just the 32 secret bytes. -/
structure DecodingKey where
  secret : List Nat
deriving DecidableEq

/-- The 32-byte buffer after the decoded bytes have been written into its
zero-initialized front. -/
def padSecret (bytes : List Nat) : List Nat :=
  (bytes ++ List.replicate 32 0).take 32

/-- The server-fault errors of the KID resolver (`ServerError` in `kid.rs`),
the construction-time file-handling variants included for completeness. -/
inductive KidServerError where
  | FileDeserialize
  | FileRead
  | KeyDecodeBase64 (kid : String)
  | KeyTypeUnsupprted (kid : String)
deriving DecidableEq

/-- The client-fault errors of the KID resolver (`ClientError` in `kid.rs`). -/
inductive KidClientError where
  | HeaderKidNotFound
  | UnknownKeyId (kid : String)
deriving DecidableEq

/-- Mapping `ClientError::status_code`: the HTTP status each client fault maps to. -/
def KidClientError.status_code : KidClientError → Nat
  | .HeaderKidNotFound => 400
  | .UnknownKeyId _ => 404

/-- The key store of the resolver: `HashMap<String, DecodingKey>` embedded as
an association list whose keys stay unique because insertion overwrites. -/
abbrev KeyStore : Type := List (String × DecodingKey)

/-- Lookup, as `HashMap::get`. -/
def storeGet (store : KeyStore) (kid : String) : Option DecodingKey :=
  (store.find? (fun kv => kv.1 == kid)).map (fun kv => kv.2)

/-- Insertion, as `HashMap::insert`: the new binding replaces any previous one under the
same key (the source only warns when that happens).  The embedding realizes
replacement as shadowing — `storeGet` searches from the head, so a prepended
binding is observationally identical to an in-place overwrite. -/
def storeInsert (store : KeyStore) (kid : String) (key : DecodingKey) : KeyStore :=
  (kid, key) :: store

/-- The loop body of `KidResolver::new` over the parsed key set: entries
without a key id are skipped (with a warning); octet entries are decoded
(failure aborts construction with `KeyDecodeBase64`) and inserted under their
id; any other key type aborts construction with `KeyTypeUnsupprted`. -/
def kidResolverLoad (decode : String → Option (List Nat)) :
    List Jwk → KeyStore → Except KidServerError KeyStore
  | [], store => .ok store
  | key :: rest, store =>
    match key.kid with
    | some id =>
      match key.algorithm with
      | .OctetKey oct =>
        match decode oct with
        | some bytes =>
          kidResolverLoad decode rest
            (storeInsert store id { secret := padSecret bytes })
        | none => .error (.KeyDecodeBase64 id)
      | .OtherKeyType => .error (.KeyTypeUnsupprted id)
    | none => kidResolverLoad decode rest store

/-- Constructor `KidResolver::new` on an already-read-and-parsed key set file. -/
def KidResolver.new (decode : String → Option (List Nat)) (keyfile : JwkSet) :
    Except KidServerError KeyStore :=
  kidResolverLoad decode keyfile.keys []

/-- The part of the JWT header that `resolve_key` consumes: the optional
`kid` field. -/
structure Header where
  kid : Option String
deriving DecidableEq

/-- Resolution `KidResolver::resolve_key`: a missing `kid` field is the client fault
`HeaderKidNotFound`, an id absent from the store is the client fault
`UnknownKeyId`, and otherwise the stored key is returned.  The server-fault
type is `Infallible`, embedded as `Empty`. -/
def resolve_key (store : KeyStore) (header : Header) :
    Except Empty (Except KidClientError DecodingKey) :=
  match header.kid with
  | none => .ok (.error .HeaderKidNotFound)
  | some kid =>
    match storeGet store kid with
    | some key => .ok (.ok key)
    | none => .ok (.error (.UnknownKeyId kid))

/-! ## Sequenced execution and specification-side comparison definitions -/

/-- The per-call inputs of one `add_version` request: the attached metadata
and content, plus the caller's id and the instant of the call. -/
structure AddRequest (C : Type) where
  metadata : AttachedMetadata
  content : C
  userId : String
  now : Nat

/-- Run a sequence of `add_version` calls, recording every returned version
number in order; `none` as soon as any call fails.  Exclusive transactions
serialize concurrent callers, and a failed call rolls its transaction back
without touching the state, so every interleaving of `N` successful calls is
such a sequence. -/
def runAdds {C : Type} (ser : C → Option String) :
    Database → List (AddRequest C) → Option (List Nat × Database)
  | db, [] => some ([], db)
  | db, r :: rs =>
    match add_version ser db r.userId r.now r.metadata r.content with
    | .error _ => none
    | .ok (v, db') =>
      match runAdds ser db' rs with
      | none => none
      | some (vs, dbf) => some (v :: vs, dbf)

/-- Modelled from the claim's words, for comparison with the code: the
largest version number among the stored policy rows (0 on an empty store). -/
def maxPolicyVersion (db : Database) : Int :=
  (db.policies.map (fun p => p.version)).foldl max 0

/-- The key a single octet JWK entry contributes to the store (`none` when
its material is not decodable octet material). -/
def jwkKey (decode : String → Option (List Nat)) (j : Jwk) : Option DecodingKey :=
  match j.algorithm with
  | .OctetKey oct => (decode oct).map (fun bytes => { secret := padSecret bytes })
  | .OtherKeyType => none

/-- Modelled from the amended claim's words, for comparison with the code:
the key contributed by the LAST entry of the key set whose key id is `k`
(`none` when no entry bears `k`). -/
def lastKeyFor (decode : String → Option (List Nat)) :
    List Jwk → String → Option DecodingKey
  | [], _ => none
  | j :: rest, k =>
    match lastKeyFor decode rest k with
    | some dk => some dk
    | none => if j.kid == some k then jwkKey decode j else none

/-! ## Concrete instances used by counterexamples and witnesses -/

/-- A store in which creation-timestamp order disagrees with version order:
version 1 was created at instant 20, version 2 at instant 10. -/
def skewDb : Database :=
  { policies :=
      [{ description := "d1", name := "a", language := "l", version := 1,
         creator := "u", created_at := 20, content := "x" },
       { description := "d2", name := "b", language := "l", version := 2,
         creator := "u", created_at := 10, content := "y" }],
    active_version := [] }

/-- A one-row store whose single policy (version 1) was created at instant 5. -/
def oneRowDb : Database :=
  { policies :=
      [{ description := "d", name := "n", language := "l", version := 1,
         creator := "u", created_at := 5, content := "c" }],
    active_version := [] }

/-- The single policy row of `oneRowDb`. -/
def oneRow : SqlitePolicy :=
  { description := "d", name := "n", language := "l", version := 1,
    creator := "u", created_at := 5, content := "c" }

/-- Two concrete `add_version` requests. -/
def twoReqs : List (AddRequest String) :=
  [{ metadata := { name := "a", description := "b", language := "c" },
     content := "x", userId := "u", now := 5 },
   { metadata := { name := "d", description := "e", language := "f" },
     content := "y", userId := "v", now := 9 }]

/-- The store produced by running `twoReqs` from the empty database. -/
def twoReqsDb : Database :=
  { policies :=
      [{ description := "b", name := "a", language := "c", version := 1,
         creator := "u", created_at := 5, content := "x" },
       { description := "e", name := "d", language := "f", version := 2,
         creator := "v", created_at := 9, content := "y" }],
    active_version := [] }

/-- A store whose ledger has version 3 active (one undeactivated row). -/
def activeThreeDb : Database :=
  { policies := [],
    active_version :=
      [{ version := 3, activated_on := 10, activated_by := "u",
         deactivated_on := none, deactivated_by := none }] }

/-- A store whose only ledger row is already deactivated, so nothing is
active. -/
def deactivatedDb : Database :=
  { policies := [],
    active_version :=
      [{ version := 1, activated_on := 10, activated_by := "u",
         deactivated_on := some 20, deactivated_by := some "u" }] }

/-- A ledger in which an OLDER row (version 1, activated at 10) is still
undeactivated while the latest row (version 2, activated at 20) has been
deactivated at 25. -/
def inertHistoryDb : Database :=
  { policies := [],
    active_version :=
      [{ version := 1, activated_on := 10, activated_by := "u",
         deactivated_on := none, deactivated_by := none },
       { version := 2, activated_on := 20, activated_by := "u",
         deactivated_on := some 25, deactivated_by := some "u" }] }

/-- The latest row of `inertHistoryDb`. -/
def inertHistoryLatest : SqliteActiveVersion :=
  { version := 2, activated_on := 20, activated_by := "u",
    deactivated_on := some 25, deactivated_by := some "u" }

/-- State after `activate 1` at instant 10 from the empty store. -/
def ledgerDb1 : Database :=
  { policies := [],
    active_version :=
      [{ version := 1, activated_on := 10, activated_by := "u",
         deactivated_on := none, deactivated_by := none }] }

/-- State after a further `deactivate` at instant 20. -/
def ledgerDb2 : Database :=
  { policies := [],
    active_version :=
      [{ version := 1, activated_on := 10, activated_by := "u",
         deactivated_on := some 20, deactivated_by := some "u" }] }

/-- State after a further `activate 1` at instant 30. -/
def ledgerDb3 : Database :=
  { policies := [],
    active_version :=
      [{ version := 1, activated_on := 10, activated_by := "u",
         deactivated_on := some 20, deactivated_by := some "u" },
       { version := 1, activated_on := 30, activated_by := "u",
         deactivated_on := none, deactivated_by := none }] }

/-- State after a final `deactivate` by user `w` at instant 40: BOTH rows
bearing version 1 now carry the stamp of that deactivation, the first row's
earlier stamp (20, by `u`) having been overwritten. -/
def ledgerDb4 : Database :=
  { policies := [],
    active_version :=
      [{ version := 1, activated_on := 10, activated_by := "u",
         deactivated_on := some 40, deactivated_by := some "w" },
       { version := 1, activated_on := 30, activated_by := "u",
         deactivated_on := some 40, deactivated_by := some "w" }] }

/-- A decode function for concrete key-set instances: the key material is
summarized by its length. -/
def lenDecode (s : String) : Option (List Nat) := some [s.length]

/-- A key set with two octet entries sharing the key id `a`, bearing
DIFFERENT key material ("pq" and "rstu"). -/
def dupJwks : JwkSet :=
  { keys := [{ kid := some "a", algorithm := .OctetKey "pq" },
             { kid := some "a", algorithm := .OctetKey "rstu" }] }

/-- The store `KidResolver::new` builds from `dupJwks`. -/
def dupStore : KeyStore :=
  [("a", { secret := padSecret [4] }), ("a", { secret := padSecret [2] })]

/-- A key set with an id-less entry, a unique entry `b`, and a duplicated
entry `a`. -/
def mixedJwks : JwkSet :=
  { keys := [{ kid := none, algorithm := .OctetKey "zz" },
             { kid := some "a", algorithm := .OctetKey "pq" },
             { kid := some "b", algorithm := .OctetKey "str" },
             { kid := some "a", algorithm := .OctetKey "rstu" }] }

/-- The store `KidResolver::new` builds from `mixedJwks`. -/
def mixedStore : KeyStore :=
  [("a", { secret := padSecret [4] }), ("b", { secret := padSecret [3] }),
   ("a", { secret := padSecret [2] })]

/-- The version number a call to `add_version` computes: one more than the
version of the policy row with the latest creation timestamp (0 on an empty
table), wrapped into the `i64` range. -/
def nextVersionOf (db : Database) : Int :=
  i64_wrap
    ((((selectLatest (fun p => p.created_at) db.policies).map (fun p => p.version)).getD 0) + 1)

/-! ## Helper lemmas -/

/-- The row selected by `ORDER BY key DESC LIMIT 1` is a row of the table. -/
theorem selectLatest_mem {α : Type} (key : α → Nat) :
    ∀ (l : List α) (x : α), selectLatest key l = some x → x ∈ l := by
  intro l
  induction l with
  | nil => intro x h; simp [selectLatest] at h
  | cons a as ih =>
    intro x h
    simp only [selectLatest] at h
    split at h
    · exact (Option.some_inj.mp h) ▸ List.mem_cons_self a as
    · rename_i y hsel
      split at h
      · exact List.mem_cons_of_mem a (Option.some_inj.mp h ▸ ih y hsel)
      · exact (Option.some_inj.mp h) ▸ List.mem_cons_self a as

/-- Selection by `ORDER BY key DESC LIMIT 1` returns nothing only on an empty table. -/
theorem selectLatest_eq_none {α : Type} (key : α → Nat) (l : List α)
    (h : selectLatest key l = none) : l = [] := by
  cases l with
  | nil => rfl
  | cons a as =>
    simp only [selectLatest] at h
    split at h
    · exact absurd h (by simp)
    · split at h <;> exact absurd h (by simp)

/-- When one row's key strictly dominates every other row's,
`ORDER BY key DESC LIMIT 1` returns exactly that row. -/
theorem selectLatest_eq_of_strict_max {α : Type} (key : α → Nat) :
    ∀ (l : List α) (p : α), p ∈ l → (∀ q ∈ l, q ≠ p → key q < key p) →
      selectLatest key l = some p := by
  intro l
  induction l with
  | nil => intro p hp; exact absurd hp (List.not_mem_nil p)
  | cons a as ih =>
    intro p hp hmax
    simp only [selectLatest]
    rcases List.mem_cons.mp hp with rfl | hpas
    · split
      · rfl
      · rename_i y hsel
        have hy : y ∈ as := selectLatest_mem key as y hsel
        by_cases hyp : y = p
        · subst hyp; rw [if_neg (lt_irrefl (key y))]
        · have hlt := hmax y (List.mem_cons_of_mem p hy) hyp
          rw [if_neg (by omega)]
    · have hres : selectLatest key as = some p :=
        ih p hpas (fun q hq hqp => hmax q (List.mem_cons_of_mem a hq) hqp)
      simp only [hres]
      by_cases hap : a = p
      · subst hap; split <;> rfl
      · have hlt := hmax a (List.mem_cons_self a as) hap
        rw [if_pos hlt]

/-- Wrapping by `i64_wrap` is the identity on the `i64` range. -/
theorem i64_wrap_eq_self (v : Int) (h1 : -(2 ^ 63) ≤ v) (h2 : v < 2 ^ 63) :
    i64_wrap v = v := by
  simp only [i64_wrap]
  split <;> omega

/-- Wrapping by `i64_wrap` always lands in the `i64` range. -/
theorem i64_wrap_mem_range (v : Int) :
    -(2 ^ 63) ≤ i64_wrap v ∧ i64_wrap v < 2 ^ 63 := by
  simp only [i64_wrap]
  constructor <;> (split <;> omega)

/-- Casting an `i64` value to `u64` and back is the identity. -/
theorem u64_as_i64_i64_as_u64 (v : Int) (h1 : -(2 ^ 63) ≤ v) (h2 : v < 2 ^ 63) :
    u64_as_i64 (i64_as_u64 v) = v := by
  simp only [u64_as_i64, i64_as_u64]
  split <;> omega

/-- Casting a nonnegative in-range `i64` value to `u64` keeps its value. -/
theorem i64_as_u64_eq_toNat (v : Int) (h0 : 0 ≤ v) (h1 : v < 2 ^ 64) :
    i64_as_u64 v = v.toNat := by
  simp only [i64_as_u64]
  omega

/-! ## The claims -/

/-- Claim C1 (counterexample): `add_version` does NOT return
`1 + max(existing version numbers)` on every store state.  On `skewDb` (max
version 2, so the claim demands version 3) the code instead reads the version
of the row with the latest `created_at` — version 1 — computes 2, and the
insert collides with the existing primary key 2, so the call errors. -/
theorem claim1_counterexample :
    maxPolicyVersion skewDb = 2 ∧
    add_version (fun (s : String) => some s) skewDb "u" 30
      { name := "c", description := "d", language := "e" } "z" = .error .AddVersion :=
  ⟨rfl, rfl⟩

/-- Claim C6 (code bug demonstration): run `activate 1`, `deactivate`,
`activate 1`, `deactivate` from the empty store.  The second `deactivate`
filters the ledger by version number alone, so it restamps the FIRST row —
whose deactivation stamp was `(20, "u")` — with `(40, "w")`: a row is amended
twice and its deactivation fields change after having been set. -/
theorem claim6_deactivate_restamps_deactivated_row :
    activate Database.empty 1 "u" 10 = .ok ledgerDb1 ∧
    deactivate ledgerDb1 "u" 20 = .ok ledgerDb2 ∧
    activate ledgerDb2 1 "u" 30 = .ok ledgerDb3 ∧
    deactivate ledgerDb3 "w" 40 = .ok ledgerDb4 ∧
    ledgerDb2.active_version.map (fun e => e.deactivated_on) = [some 20] ∧
    ledgerDb4.active_version.map (fun e => e.deactivated_on) = [some 40, some 40] :=
  ⟨rfl, rfl, rfl, rfl, rfl, rfl⟩

/-- Claim C3: when version `v` is currently active, `activate v` succeeds,
appends no ledger row, leaves the whole store unchanged, and
`get_active_version` afterwards still returns `v`. -/
theorem claim3_activate_already_active_noop (db : Database) (v : Nat)
    (userId : String) (now : Nat)
    (h : get_active_version db = .ok (some v)) :
    activate db v userId now = .ok db ∧ get_active_version db = .ok (some v) := by
  have hg : _get_active_version db.active_version = some v := by
    simpa [get_active_version] using h
  exact ⟨by simp [activate, hg], h⟩

/-- Witness for C3 at a concrete store with version 3 active. -/
theorem claim3_witness :
    activate activeThreeDb 3 "x" 99 = .ok activeThreeDb ∧
    get_active_version activeThreeDb = .ok (some 3) :=
  claim3_activate_already_active_noop activeThreeDb 3 "x" 99 (by rfl)

/-- Claim C4: when no version is active — the ledger is empty, or the row
with the strictly latest `activated_on` is already deactivated — `deactivate`
succeeds and modifies no row. -/
theorem claim4_deactivate_no_active_noop (db : Database) (userId : String)
    (now : Nat)
    (h : db.active_version = [] ∨
      ∃ e, e ∈ db.active_version ∧
        (∀ q ∈ db.active_version, q ≠ e → q.activated_on < e.activated_on) ∧
        e.deactivated_on.isSome) :
    deactivate db userId now = .ok db := by
  rcases h with hnil | ⟨e, he, hmax, hdeact⟩
  · simp [deactivate, _get_active_version, hnil, selectLatest]
  · have hsel := selectLatest_eq_of_strict_max (fun av => av.activated_on)
      db.active_version e he hmax
    simp [deactivate, _get_active_version, hsel, hdeact]

/-- Witness for C4 at a concrete store whose only ledger row is already
deactivated. -/
theorem claim4_witness :
    deactivate deactivatedDb "u" 99 = .ok deactivatedDb :=
  claim4_deactivate_no_active_noop deactivatedDb "u" 99 (by decide)

/-- Claim C5: `get_active_version` returns exactly the version of the ledger
row with the strictly latest `activated_on` when that row is undeactivated,
and `none` when the ledger is empty or that row is deactivated — even while
older undeactivated rows remain. -/
theorem claim5_get_active_version_characterization (db : Database) :
    (db.active_version = [] → get_active_version db = .ok none) ∧
    (∀ e, e ∈ db.active_version →
      (∀ q ∈ db.active_version, q ≠ e → q.activated_on < e.activated_on) →
      get_active_version db =
        .ok (if e.deactivated_on.isSome then none
             else some (i64_as_u64 e.version))) := by
  constructor
  · intro hnil
    simp [get_active_version, _get_active_version, hnil, selectLatest]
  · intro e he hmax
    have hsel := selectLatest_eq_of_strict_max (fun av => av.activated_on)
      db.active_version e he hmax
    simp only [get_active_version, _get_active_version, hsel]

/-- Witness for C5 at a ledger whose latest row is deactivated while an older
undeactivated row remains: nothing is active. -/
theorem claim5_witness :
    get_active_version inertHistoryDb =
      .ok (if inertHistoryLatest.deactivated_on.isSome then none
           else some (i64_as_u64 inertHistoryLatest.version)) ∧
    get_active_version inertHistoryDb = .ok none :=
  ⟨(claim5_get_active_version_characterization inertHistoryDb).2
      inertHistoryLatest (by decide) (by decide),
   by rfl⟩

/-- Claim C8: querying the metadata or content of a version number that no
stored row bears yields the absent value and never an error. -/
theorem claim8_absent_version_is_none {C : Type} (de : String → Option C)
    (db : Database) (v : Nat)
    (habsent : ∀ p ∈ db.policies, p.version ≠ u64_as_i64 v) :
    get_version_metadata db v = .ok none ∧ get_version_content de db v = .ok none := by
  have hfilter : db.policies.filter (fun p => decide (p.version = u64_as_i64 v)) = [] := by
    rw [List.filter_eq_nil_iff]
    intro a ha
    simp [habsent a ha]
  constructor
  · simp [get_version_metadata, hfilter, selectLatest]
  · simp [get_version_content, hfilter, selectLatest]

/-- Witness for C8: version 7 was never stored in `oneRowDb`. -/
theorem claim8_witness :
    get_version_metadata oneRowDb 7 = .ok none ∧
    get_version_content (fun (s : String) => some s) oneRowDb 7 = .ok none :=
  claim8_absent_version_is_none (fun (s : String) => some s) oneRowDb 7 (by decide)

/-- Claim C1 (amended): `add_version` computes its version number as 1 plus
the version of the policy row with the strictly latest creation timestamp
(1 on an empty store), and returns it after persisting the new row under it,
provided serialization succeeds and no stored row already bears the computed
number. -/
theorem claim1_add_version_next_from_latest_created {C : Type}
    (ser : C → Option String) (db : Database) (userId : String) (now : Nat)
    (metadata : AttachedMetadata) (content : C) (s : String)
    (hser : ser content = some s) :
    (db.policies = [] →
      add_version ser db userId now metadata content =
        .ok (1, { db with policies :=
          [{ description := metadata.description, name := metadata.name,
             language := metadata.language, version := 1,
             creator := userId, created_at := now, content := s }] })) ∧
    (∀ p, p ∈ db.policies →
      (∀ q ∈ db.policies, q ≠ p → q.created_at < p.created_at) →
      -(2 ^ 63) ≤ p.version + 1 → p.version + 1 < 2 ^ 63 →
      (∀ q ∈ db.policies, q.version ≠ p.version + 1) →
      add_version ser db userId now metadata content =
        .ok (i64_as_u64 (p.version + 1), { db with policies := db.policies ++
          [{ description := metadata.description, name := metadata.name,
             language := metadata.language, version := p.version + 1,
             creator := userId, created_at := now, content := s }] })) := by
  constructor
  · intro hnil
    have hwa : i64_wrap ((0 : Int) + 1) = 1 := by decide
    have hwb : i64_wrap (1 : Int) = 1 := by decide
    have hc : i64_as_u64 (1 : Int) = 1 := by decide
    simp [add_version, hser, hnil, selectLatest, hwa, hwb, hc]
  · intro p hp hmax hlow hhigh hfree
    have hsel := selectLatest_eq_of_strict_max (fun q => q.created_at)
      db.policies p hp hmax
    have hw : i64_wrap (p.version + 1) = p.version + 1 :=
      i64_wrap_eq_self (p.version + 1) hlow hhigh
    have hany : db.policies.any (fun q => decide (q.version = p.version + 1)) = false := by
      rw [List.any_eq_false]
      intro q hq
      simp [hfree q hq]
    simp [add_version, hser, hsel, hw, hany]

/-- Witness for C1 (amended) at `oneRowDb`: the only row has version 1 and
the freshest timestamp, so the next call returns version 2. -/
theorem claim1_witness :
    add_version (fun (s : String) => some s) oneRowDb "u" 9
      { name := "n2", description := "d2", language := "l2" } "c2" =
    .ok (i64_as_u64 (oneRow.version + 1), { oneRowDb with policies := oneRowDb.policies ++
      [{ description := "d2", name := "n2", language := "l2", version := oneRow.version + 1,
         creator := "u", created_at := 9, content := "c2" }] }) :=
  (claim1_add_version_next_from_latest_created (fun (s : String) => some s)
      oneRowDb "u" 9 { name := "n2", description := "d2", language := "l2" } "c2" "c2"
      rfl).2 oneRow (by decide) (by decide) (by decide) (by decide) (by decide)

/-- Dissection of a successful `add_version` call: serialization succeeded,
the computed next version was free, the returned number is its `u64` cast,
and the new state appends exactly one row under it. -/
theorem add_version_ok_dissect {C : Type} (ser : C -> Option String) (db : Database)
    (u : String) (t : Nat) (m : AttachedMetadata) (c : C) (v : Nat) (db' : Database)
    (h : add_version ser db u t m c = .ok (v, db')) :
    ∃ s, ser c = some s ∧
      (∀ q ∈ db.policies, q.version ≠ nextVersionOf db) ∧
      v = i64_as_u64 (nextVersionOf db) ∧
      db' = { db with policies := db.policies ++
        [{ description := m.description, name := m.name, language := m.language,
           version := nextVersionOf db, creator := u, created_at := t,
           content := s }] } := by
  simp only [add_version] at h
  split at h
  · exact absurd h (by simp)
  · rename_i s hser
    split at h
    · exact absurd h (by simp)
    · rename_i hany
      simp only [Except.ok.injEq, Prod.mk.injEq] at h
      obtain ⟨hv, hdb⟩ := h
      refine ⟨s, hser, ?_, ?_, ?_⟩
      · intro q hq hqe
        apply hany
        rw [List.any_eq_true]
        exact ⟨q, hq, by simp [nextVersionOf] at hqe; simp [hqe]⟩
      · rw [← hv]; rfl
      · rw [← hdb]; rfl

/-- Helper for C2: starting from a store whose version column reads exactly
`1, …, k` (in insertion order), a run of successful `add_version` calls
returns exactly the consecutive numbers `k+1, k+2, …`.  The success of each
insert (guaranteed unique by the `policies` primary key) forces each computed
number out of the occupied range, whatever the creation timestamps are. -/
theorem runAdds_returns_consecutive {C : Type} (ser : C → Option String) :
    ∀ (rs : List (AddRequest C)) (db : Database) (k : Nat) (vs : List Nat)
      (dbf : Database),
      db.policies.map (fun p => p.version) = (List.range' 1 k).map (fun n : Nat => (n : Int)) →
      k + rs.length < 2 ^ 63 →
      runAdds ser db rs = some (vs, dbf) →
      vs = List.range' (k + 1) rs.length := by
  intro rs
  induction rs with
  | nil =>
    intro db k vs dbf hinv hbound hrun
    simp only [runAdds, Option.some.injEq, Prod.mk.injEq] at hrun
    simp [hrun.1]
  | cons r rs ih =>
    intro db k vs dbf hinv hbound hrun
    cases hadd : add_version ser db r.userId r.now r.metadata r.content with
    | error e => simp [runAdds, hadd] at hrun
    | ok vdb =>
      obtain ⟨v, db'⟩ := vdb
      simp only [runAdds, hadd] at hrun
      cases hrest : runAdds ser db' rs with
      | none => rw [hrest] at hrun; exact absurd hrun (by simp)
      | some vsdbf =>
        obtain ⟨vs', dbf'⟩ := vsdbf
        rw [hrest] at hrun
        simp only [Option.some.injEq, Prod.mk.injEq] at hrun
        obtain ⟨hvs, hdbf⟩ := hrun
        obtain ⟨s, hser, hfree, hv, hdb'⟩ :=
          add_version_ok_dissect ser db r.userId r.now r.metadata r.content v db' hadd
        have hnext : nextVersionOf db = ((k + 1 : Nat) : Int) := by
          cases k with
          | zero =>
            have hpol : db.policies = [] := by simpa using hinv
            have hw : i64_wrap ((0 : Int) + 1) = 1 := by decide
            have hw2 : i64_wrap (1 : Int) = 1 := by decide
            simp [nextVersionOf, hpol, selectLatest, hw, hw2]
          | succ k' =>
            cases hsel : selectLatest (fun p => p.created_at) db.policies with
            | none =>
              have hpol := selectLatest_eq_none (fun p => p.created_at) db.policies hsel
              rw [hpol] at hinv
              simp [List.range'_succ] at hinv
            | some p =>
              have hpmem : p ∈ db.policies :=
                selectLatest_mem (fun q => q.created_at) db.policies p hsel
              have hpver : p.version ∈ db.policies.map (fun q => q.version) :=
                List.mem_map_of_mem (fun q => q.version) hpmem
              rw [hinv] at hpver
              obtain ⟨n, hn, hcast⟩ := List.mem_map.mp hpver
              have hnrange := List.mem_range'_1.mp hn
              have hbounds : 1 ≤ n ∧ n < k' + 2 := by omega
              have hwrap : i64_wrap ((n : Int) + 1) = (n : Int) + 1 := by
                apply i64_wrap_eq_self
                · omega
                · have : (n : Int) < 2 ^ 63 - 1 := by
                    have hnk : n ≤ k' + 1 := by omega
                    have : (k' + 1) + (rs.length + 1) < 2 ^ 63 := by
                      simpa using hbound
                    push_cast
                    omega
                  omega
              have hnext_expr : nextVersionOf db = (n : Int) + 1 := by
                simp only [nextVersionOf, hsel, Option.map_some', Option.getD_some]
                rw [← hcast]
                exact hwrap
              by_cases hle : n + 1 < 1 + (k' + 1)
              · exfalso
                have hmem : ((n + 1 : Nat) : Int) ∈ db.policies.map (fun q => q.version) := by
                  rw [hinv]
                  exact List.mem_map_of_mem (fun j : Nat => (j : Int))
                    (List.mem_range'_1.mpr ⟨by omega, hle⟩)
                obtain ⟨q, hq, hqv⟩ := List.mem_map.mp hmem
                apply hfree q hq
                rw [hqv, hnext_expr]
                push_cast
                ring
              · have hneq : n = k' + 1 := by omega
                rw [hnext_expr, hneq]
                push_cast
                ring
        have hklt : k + 1 < 2 ^ 64 := by
          have h63 : (2 : Nat) ^ 63 < 2 ^ 64 := by norm_num
          omega
        have hvval : v = k + 1 := by
          rw [hv, hnext, i64_as_u64_eq_toNat]
          · simp
          · positivity
          · exact_mod_cast hklt
        have hinv' : db'.policies.map (fun p => p.version) =
            (List.range' 1 (k + 1)).map (fun n : Nat => (n : Int)) := by
          rw [hdb']
          simp only [List.map_append, hinv, List.map_cons, List.map_nil, hnext]
          rw [List.range'_1_concat, List.map_append]
          simp [Nat.add_comm]
        have hrec := ih db' (k + 1) vs' dbf' hinv' (by simp at hbound ⊢; omega) hrest
        rw [← hvs, hrec, hvval]
        simp only [List.length_cons]
        rw [List.range'_succ]

/-- Claim C2: any run of `N` successful `add_version` calls from the empty
store returns exactly the version numbers `1, 2, …, N` — no duplicates, no
gaps — whatever the callers, metadata, contents and clock readings are.
(The bound `N < 2^63` keeps the `i64` version counter from overflowing.) -/
theorem claim2_versions_are_one_to_n {C : Type} (ser : C → Option String)
    (rs : List (AddRequest C)) (vs : List Nat) (dbf : Database)
    (hlen : rs.length < 2 ^ 63)
    (hrun : runAdds ser Database.empty rs = some (vs, dbf)) :
    vs = List.range' 1 rs.length :=
  runAdds_returns_consecutive ser rs Database.empty 0 vs dbf
    (by simp [Database.empty]) (by omega) hrun

/-- Witness for C2: two concrete successful calls return `[1, 2]`. -/
theorem claim2_witness :
    runAdds (fun (s : String) => some s) Database.empty twoReqs =
      some ([1, 2], twoReqsDb) ∧
    ([1, 2] : List Nat) = List.range' 1 twoReqs.length :=
  ⟨by rfl,
   claim2_versions_are_one_to_n (fun (s : String) => some s) twoReqs [1, 2] twoReqsDb
     (by norm_num [twoReqs]) (by rfl)⟩

/-- Claim C7: after a successful `add_version` with metadata `M` and content
`C` returning version `V`, `get_version_metadata V` returns `M` plus the
caller's id (under the placeholder display name) and the creation timestamp,
and `get_version_content V` returns content equal to `C` — given that the
codec round-trips the content. -/
theorem claim7_add_version_roundtrip {C : Type} (ser : C → Option String)
    (de : String → Option C) (db db' : Database) (userId : String) (now : Nat)
    (metadata : AttachedMetadata) (content : C) (s : String) (V : Nat)
    (hser : ser content = some s) (hde : de s = some content)
    (hadd : add_version ser db userId now metadata content = .ok (V, db')) :
    get_version_metadata db' V =
      .ok (some { attached := metadata, created := now,
                  creator := { id := userId, name := "John Smith" },
                  version := V }) ∧
    get_version_content de db' V = .ok (some content) := by
  obtain ⟨s', hser', hfree, hv, hdb'⟩ :=
    add_version_ok_dissect ser db userId now metadata content V db' hadd
  rw [hser] at hser'
  injection hser' with hss
  subst hss
  have hrange := i64_wrap_mem_range
    ((((selectLatest (fun p => p.created_at) db.policies).map (fun p => p.version)).getD 0) + 1)
  have hcast : u64_as_i64 V = nextVersionOf db := by
    rw [hv]
    exact u64_as_i64_i64_as_u64 (nextVersionOf db) hrange.1 hrange.2
  have hfilter :
      db'.policies.filter (fun p => decide (p.version = u64_as_i64 V)) =
      [{ description := metadata.description, name := metadata.name,
         language := metadata.language, version := nextVersionOf db,
         creator := userId, created_at := now, content := s }] := by
    rw [hdb']
    rw [List.filter_append]
    have hleft : db.policies.filter (fun p => decide (p.version = u64_as_i64 V)) = [] := by
      rw [List.filter_eq_nil_iff]
      intro q hq
      simp [hcast, hfree q hq]
    rw [hleft]
    simp [hcast]
  constructor
  · simp only [get_version_metadata, hfilter, selectLatest]
    have hver : i64_as_u64 (nextVersionOf db) = V := hv.symm
    simp [hver]
  · simp only [get_version_content, hfilter, selectLatest, hde]

/-- Witness for C7: adding content `"c"` as version 1 to the empty store and
reading it back. -/
theorem claim7_witness :
    get_version_metadata
        { policies := [{ description := "d", name := "n", language := "l",
                         version := 1, creator := "u", created_at := 7, content := "c" }],
          active_version := [] } 1 =
      .ok (some { attached := { name := "n", description := "d", language := "l" },
                  created := 7, creator := { id := "u", name := "John Smith" },
                  version := 1 }) ∧
    get_version_content (fun (s : String) => some s)
        { policies := [{ description := "d", name := "n", language := "l",
                         version := 1, creator := "u", created_at := 7, content := "c" }],
          active_version := [] } 1 =
      .ok (some "c") :=
  claim7_add_version_roundtrip (fun (s : String) => some s) (fun (s : String) => some s)
    Database.empty
    { policies := [{ description := "d", name := "n", language := "l",
                     version := 1, creator := "u", created_at := 7, content := "c" }],
      active_version := [] }
    "u" 7 { name := "n", description := "d", language := "l" } "c" "c" 1
    rfl rfl (by rfl)

/-- Looking up a key after an insert: the inserted binding answers for its
own id, every other id is unaffected. -/
theorem storeGet_storeInsert (store : KeyStore) (idv k : String) (key : DecodingKey) :
    storeGet (storeInsert store idv key) k =
      if k = idv then some key else storeGet store k := by
  by_cases h : idv = k
  · subst h
    simp [storeGet, storeInsert]
  · rw [if_neg (Ne.symm h)]
    simp [storeGet, storeInsert, List.find?_cons, h]

/-- The store built by the `KidResolver::new` loop answers every lookup with
the key of the LAST processed entry bearing that id, falling back to the
accumulator for ids no entry bears. -/
theorem kidResolverLoad_get (decode : String → Option (List Nat)) :
    ∀ (keys : List Jwk) (store0 fin : KeyStore) (k : String),
      kidResolverLoad decode keys store0 = .ok fin →
      storeGet fin k =
        match lastKeyFor decode keys k with
        | some dk => some dk
        | none => storeGet store0 k := by
  intro keys
  induction keys with
  | nil =>
    intro store0 fin k h
    simp only [kidResolverLoad, Except.ok.injEq] at h
    subst h
    simp [lastKeyFor]
  | cons j rest ih =>
    intro store0 fin k h
    simp only [kidResolverLoad] at h
    split at h
    · rename_i idv hkid
      split at h
      · rename_i oct halg
        split at h
        · rename_i bytes hdec
          have hrec := ih (storeInsert store0 idv { secret := padSecret bytes }) fin k h
          simp only [lastKeyFor]
          cases hl : lastKeyFor decode rest k with
          | some dk => rw [hrec, hl]
          | none =>
            rw [hrec, hl, storeGet_storeInsert]
            by_cases hk : k = idv
            · subst hk
              simp [hkid, jwkKey, halg, hdec]
            · rw [if_neg hk]
              have : (j.kid == some k) = false := by
                simp [hkid]
                exact fun hc => hk hc.symm
              simp [this]
        · exact absurd h (by simp)
      · exact absurd h (by simp)
    · rename_i hkid
      have hrec := ih store0 fin k h
      simp only [lastKeyFor]
      cases hl : lastKeyFor decode rest k with
      | some dk => rw [hrec, hl]
      | none =>
        rw [hrec, hl]
        simp [hkid]

/-- Claim C9 (counterexample): duplicate key ids are NOT skipped in favour of
the first occurrence.  Loading a key set whose two entries both carry id `a`
but different octet material stores the key of the SECOND entry under `a`. -/
theorem claim9_counterexample :
    KidResolver.new lenDecode dupJwks = .ok dupStore ∧
    storeGet dupStore "a" = some { secret := padSecret [4] } ∧
    ({ secret := padSecret [4] } : DecodingKey) ≠ { secret := padSecret [2] } :=
  ⟨by rfl, by rfl, by decide⟩

/-- Claim C9 (amended): entries lacking a key id are skipped (with a
warning), and when several entries share a key id the later entry replaces
the earlier one (with a warning): the key stored under an id is the one from
the LAST entry bearing it. -/
theorem claim9_duplicate_kid_last_wins (decode : String → Option (List Nat))
    (keyfile : JwkSet) (store : KeyStore)
    (hok : KidResolver.new decode keyfile = .ok store) (k : String) :
    storeGet store k = lastKeyFor decode keyfile.keys k := by
  have h := kidResolverLoad_get decode keyfile.keys [] store k hok
  rw [h]
  cases lastKeyFor decode keyfile.keys k <;> simp [storeGet]

/-- Witness for C9 (amended) on a key set with an id-less entry and a
duplicated id `a`. -/
theorem claim9_witness :
    KidResolver.new lenDecode mixedJwks = .ok mixedStore ∧
    storeGet mixedStore "a" = lastKeyFor lenDecode mixedJwks.keys "a" :=
  ⟨by rfl,
   claim9_duplicate_kid_last_wins lenDecode mixedJwks mixedStore (by rfl) "a"⟩

/-- Claim C10: for a successfully constructed resolver, `resolve_key` maps a
missing `kid` header field to the client error `HeaderKidNotFound` (status
400), an unknown key id to the client error `UnknownKeyId` (status 404),
returns the stored key otherwise, and never returns a server fault. -/
theorem claim10_resolve_key_classification (decode : String → Option (List Nat))
    (keyfile : JwkSet) (store : KeyStore)
    (_hok : KidResolver.new decode keyfile = .ok store) (header : Header) :
    (header.kid = none →
      resolve_key store header = .ok (.error .HeaderKidNotFound) ∧
      KidClientError.HeaderKidNotFound.status_code = 400) ∧
    (∀ k, header.kid = some k → storeGet store k = none →
      resolve_key store header = .ok (.error (.UnknownKeyId k)) ∧
      (KidClientError.UnknownKeyId k).status_code = 404) ∧
    (∀ k key, header.kid = some k → storeGet store k = some key →
      resolve_key store header = .ok (.ok key)) ∧
    (∀ e, resolve_key store header ≠ .error e) := by
  refine ⟨?_, ?_, ?_, ?_⟩
  · intro hk
    simp [resolve_key, hk, KidClientError.status_code]
  · intro k hk hget
    simp [resolve_key, hk, hget, KidClientError.status_code]
  · intro k key hk hget
    simp [resolve_key, hk, hget]
  · intro e
    exact e.elim

/-- Witness for C10: an id absent from the loaded store yields the 404
client fault. -/
theorem claim10_witness :
    resolve_key mixedStore { kid := some "zzz" } =
      .ok (.error (.UnknownKeyId "zzz")) ∧
    (KidClientError.UnknownKeyId "zzz").status_code = 404 :=
  (claim10_resolve_key_classification lenDecode mixedJwks mixedStore (by rfl)
      { kid := some "zzz" }).2.1 "zzz" rfl (by rfl)
